import Mathlib

/-!
Verification of the ChunkPacker core of the qdrant_stack scripts:
the text-chunking routine `chunk_text` (present identically in
`document_loader.py` and `load_documents.py`) and the context-assembly
loop of `retrieve_for_llm_context` in `retriever.py`.

Python strings are modelled as `List Char` (sequences of code points).
Python `int` is modelled as `Int`.  The chunking while-loop is modelled
with explicit fuel: a result `.error .fuelExhausted` for every fuel value
means the Python loop never exits; `.ok` results correspond exactly to
terminating Python runs.  Negative indices in slices and subscripts follow
Python semantics (counting from the end of the string); a subscript out of
range even after that adjustment is `.error .indexError`.
-/

/-- Python strings as lists of characters (code points). -/
abbrev PyStr := List Char

/-- Whitespace test used by Python's `str.isspace` and `str.strip`:
ASCII whitespace, the C1 controls NEL and NBSP, and the Unicode space
separators and line/paragraph separators. -/
def isPySpace (c : Char) : Bool :=
  (9 ≤ c.val && c.val ≤ 13) || (28 ≤ c.val && c.val ≤ 31) || c.val = 32 ||
  c.val = 133 || c.val = 160 || c.val = 5760 ||
  (8192 ≤ c.val && c.val ≤ 8202) || c.val = 8232 || c.val = 8233 ||
  c.val = 8239 || c.val = 8287 || c.val = 12288

/-- Membership test `c in '.!?\n'` from the chunkers' sentence-boundary scan. -/
def isBreakChar (c : Char) : Bool :=
  c = '.' || c = '!' || c = '?' || c = '\n'

/-- Clamp one endpoint of a Python slice `s[a:b]` into `[0, n]`:
negative endpoints count from the end of the string. -/
def pyIdx (n : Nat) (x : Int) : Nat :=
  if x < 0 then (x + n).toNat else min x.toNat n

/-- Python slice `s[a:b]` (step 1). -/
def pySlice (s : PyStr) (a b : Int) : PyStr :=
  (s.take (pyIdx s.length b)).drop (pyIdx s.length a)

/-- Python `str.strip()`: remove leading and trailing whitespace. -/
def pyStrip (s : PyStr) : PyStr :=
  ((s.dropWhile isPySpace).reverse.dropWhile isPySpace).reverse

/-- Outcomes that keep a fuelled Python run from producing a value:
the fuel ran out (the loop had not exited yet), or a subscript raised
`IndexError`. -/
inductive ChunkErr
  | fuelExhausted
  | indexError
deriving DecidableEq

/-- Python subscript `s[i]`: negative `i` counts from the end; out of
range raises `IndexError`. -/
def pyGetI (s : PyStr) (i : Int) : Except ChunkErr Char :=
  let j : Int := if i < 0 then i + s.length else i
  if 0 ≤ j ∧ j < (s.length : Int) then
    match s.get? j.toNat with
    | some c => .ok c
    | none => .error .indexError
  else .error .indexError

/-- Python `range(hi, lo, -1)`: the descending list `hi, hi-1, ..., lo+1`. -/
def pyRangeRev (hi lo : Int) : List Int :=
  (List.range (hi - lo).toNat).map (fun (k : Nat) => hi - (k : Int))

namespace DocumentLoader

/-- Sentence-boundary scan of `chunk_text` (document_loader.py lines 56-61):
for each index `i` in the given descending range, if `text[i]` is one of
`.!?\n` and is the last character or is followed by whitespace, the new
chunk end is `i + 1`; otherwise keep scanning. -/
def findSnap (t : PyStr) : List Int → Except ChunkErr (Option Int)
  | [] => .ok none
  | i :: rest =>
    match pyGetI t i with
    | .error e => .error e
    | .ok c =>
      if isBreakChar c then
        if i + 1 ≥ (t.length : Int) then .ok (some (i + 1))
        else
          match pyGetI t (i + 1) with
          | .error e => .error e
          | .ok c2 => if isPySpace c2 then .ok (some (i + 1)) else findSnap t rest
      else findSnap t rest

/-- The end-of-window computation of one loop iteration
(document_loader.py lines 53-61): tentative end `min(start + chunk_size,
len(text))`, snapped back to one past a sentence boundary when the
tentative end has not reached the end of the text and the backward scan
finds one. -/
def snapEnd (t : PyStr) (cs : Int) (start : Int) : Except ChunkErr Int :=
  let e0 := min (start + cs) (t.length : Int)
  if e0 < (t.length : Int) then
    match findSnap t (pyRangeRev (e0 - 1) (max (start + Int.fdiv cs 2) start)) with
    | .error e => .error e
    | .ok (some j) => .ok j
    | .ok none => .ok e0
  else .ok e0

/-- The while-loop of `chunk_text` (document_loader.py lines 51-67), with
fuel.  Each iteration records the window `(start, end)` of the chunk it
appends; the appended chunk text is `strip(text[start:end])`, recovered
from the window by `chunk_text` below. -/
def chunkLoop (t : PyStr) (cs ov : Int) : Nat → Int → List (Int × Int) →
    Except ChunkErr (List (Int × Int))
  | 0, _, _ => .error .fuelExhausted
  | fuel + 1, start, spans =>
    if start < (t.length : Int) then
      match snapEnd t cs start with
      | .error e => .error e
      | .ok e => chunkLoop t cs ov fuel (e - ov) (spans ++ [(start, e)])
    else .ok spans

/-- Function `chunk_text` of document_loader.py (lines 29-69): return
`[text]` whole when it fits in one chunk, otherwise run the chunking loop
and strip each appended window. -/
def chunk_text (fuel : Nat) (t : PyStr) (cs ov : Int) : Except ChunkErr (List PyStr) :=
  if (t.length : Int) ≤ cs then .ok [t]
  else
    match chunkLoop t cs ov fuel 0 [] with
    | .error e => .error e
    | .ok spans => .ok (spans.map (fun p => pyStrip (pySlice t p.1 p.2)))

/-- The chunk windows `(start, end)` produced by `chunk_text`: the whole
text for the single-chunk case, otherwise the loop's appended windows. -/
def chunk_spans (fuel : Nat) (t : PyStr) (cs ov : Int) :
    Except ChunkErr (List (Int × Int)) :=
  if (t.length : Int) ≤ cs then .ok [(0, (t.length : Int))]
  else chunkLoop t cs ov fuel 0 []

end DocumentLoader

namespace LoadDocuments

/-- Sentence-boundary scan of `chunk_text` (load_documents.py lines 86-91),
the second, textually identical copy of the chunker. -/
def findSnap (t : PyStr) : List Int → Except ChunkErr (Option Int)
  | [] => .ok none
  | i :: rest =>
    match pyGetI t i with
    | .error e => .error e
    | .ok c =>
      if isBreakChar c then
        if i + 1 ≥ (t.length : Int) then .ok (some (i + 1))
        else
          match pyGetI t (i + 1) with
          | .error e => .error e
          | .ok c2 => if isPySpace c2 then .ok (some (i + 1)) else findSnap t rest
      else findSnap t rest

/-- The end-of-window computation of one loop iteration
(load_documents.py lines 83-91). -/
def snapEnd (t : PyStr) (cs : Int) (start : Int) : Except ChunkErr Int :=
  let e0 := min (start + cs) (t.length : Int)
  if e0 < (t.length : Int) then
    match findSnap t (pyRangeRev (e0 - 1) (max (start + Int.fdiv cs 2) start)) with
    | .error e => .error e
    | .ok (some j) => .ok j
    | .ok none => .ok e0
  else .ok e0

/-- The while-loop of `chunk_text` (load_documents.py lines 81-97). -/
def chunkLoop (t : PyStr) (cs ov : Int) : Nat → Int → List (Int × Int) →
    Except ChunkErr (List (Int × Int))
  | 0, _, _ => .error .fuelExhausted
  | fuel + 1, start, spans =>
    if start < (t.length : Int) then
      match snapEnd t cs start with
      | .error e => .error e
      | .ok e => chunkLoop t cs ov fuel (e - ov) (spans ++ [(start, e)])
    else .ok spans

/-- Function `chunk_text` of load_documents.py (lines 59-99). -/
def chunk_text (fuel : Nat) (t : PyStr) (cs ov : Int) : Except ChunkErr (List PyStr) :=
  if (t.length : Int) ≤ cs then .ok [t]
  else
    match chunkLoop t cs ov fuel 0 [] with
    | .error e => .error e
    | .ok spans => .ok (spans.map (fun p => pyStrip (pySlice t p.1 p.2)))

end LoadDocuments

namespace Retriever

/-- A retrieved result as consumed by the context-assembly loop of
`retrieve_for_llm_context` (retriever.py lines 203-221): the keys of the
result dict that the loop reads.  `text` is absent when the stored payload
had no text field (the loop then skips the result); `id` and
`payload.source` fall back to placeholder strings when absent. -/
structure RDoc where
  id : Option PyStr
  text : Option PyStr
  source : Option PyStr
deriving DecidableEq

/-- The formatted context entry (retriever.py line 210):
`f"Document ID: {doc_id}\nSource: {source}\nContent: {text}\n\n"` with
the code's fallbacks for a missing id or source. -/
def fmtDoc (d : RDoc) (t : PyStr) : PyStr :=
  "Document ID: ".toList ++ d.id.getD "Unknown ID".toList ++
  "\nSource: ".toList ++ d.source.getD "Unknown source".toList ++
  "\nContent: ".toList ++ t ++ "\n\n".toList

/-- The context-assembly loop of `retrieve_for_llm_context`
(retriever.py lines 200-221): walk the results in rank order; append each
formatted entry that still fits the character budget whole; at the first
entry that does not fit, append a truncated copy ending in `...` when
more than 100 characters of budget remain, and stop either way. -/
def packLoop (budget : Int) : List RDoc → Int → List PyStr → List PyStr
  | [], _, acc => acc
  | d :: rest, used, acc =>
    match d.text with
    | none => packLoop budget rest used acc
    | some t =>
      let dc := fmtDoc d t
      if used + (dc.length : Int) ≤ budget then
        packLoop budget rest (used + (dc.length : Int)) (acc ++ [dc])
      else
        let remaining := budget - used
        if remaining > 100 then acc ++ [pySlice dc 0 (remaining - 3) ++ "...".toList]
        else acc

/-- The list of context entries built by `retrieve_for_llm_context` for a
given result list and `max_tokens`: the loop is entered with the budget
`max_tokens * CHARS_PER_TOKEN` (retriever.py lines 196-201). -/
def packEntries (docs : List RDoc) (max_tokens : Int) : List PyStr :=
  packLoop (max_tokens * 4) docs 0 []

/-- The context string returned by `retrieve_for_llm_context`
(retriever.py line 223): `"".join(context)`. -/
def pack (docs : List RDoc) (max_tokens : Int) : PyStr :=
  (packEntries docs max_tokens).flatten

/-- The formatted entries of the results that carry a text field, in rank
order; results without text are skipped exactly as the loop skips them. -/
def docFmts (docs : List RDoc) : List PyStr :=
  docs.filterMap (fun d => d.text.map (fun t => fmtDoc d t))

/-- Modelled from the spec: the longest prefix of the formatted entries
whose cumulative length fits the budget, taken greedily in order ("the
first K results that together fit the budget").  Used to compare the
loop's output order against the spec's description. -/
def greedyFit (budget : Int) : List PyStr → List PyStr
  | [] => []
  | s :: rest =>
    if (s.length : Int) ≤ budget then s :: greedyFit (budget - s.length) rest
    else []

end Retriever

/-- The text of the spec's Scenario 1,
"Hello world. This is a test." (28 characters). -/
def helloText : PyStr := "Hello world. This is a test.".toList

section Equivalence

/-- The two sentence-boundary scans are the same function. -/
theorem findSnap_eq (t : PyStr) (l : List Int) :
    DocumentLoader.findSnap t l = LoadDocuments.findSnap t l := by
  induction l with
  | nil => rfl
  | cons i rest ih =>
    simp only [DocumentLoader.findSnap, LoadDocuments.findSnap, ih]

/-- The two end-of-window computations are the same function. -/
theorem snapEnd_eq (t : PyStr) (cs start : Int) :
    DocumentLoader.snapEnd t cs start = LoadDocuments.snapEnd t cs start := by
  simp only [DocumentLoader.snapEnd, LoadDocuments.snapEnd, findSnap_eq]

/-- The two chunking loops are the same function. -/
theorem chunkLoop_eq (t : PyStr) (cs ov : Int) (fuel : Nat) (start : Int)
    (spans : List (Int × Int)) :
    DocumentLoader.chunkLoop t cs ov fuel start spans =
      LoadDocuments.chunkLoop t cs ov fuel start spans := by
  induction fuel generalizing start spans with
  | zero => rfl
  | succ n ih =>
    simp only [DocumentLoader.chunkLoop, LoadDocuments.chunkLoop, snapEnd_eq, ih]

end Equivalence

/-- C10: the chunking implementations of document_loader.py and
load_documents.py are extensionally equal: for every fuel, text,
chunk_size and overlap they produce the same outcome (the same chunk list
when they terminate, and the same error behaviour when they do not). -/
theorem chunkers_extensionally_equal (fuel : Nat) (t : PyStr) (cs ov : Int) :
    DocumentLoader.chunk_text fuel t cs ov = LoadDocuments.chunk_text fuel t cs ov := by
  simp only [DocumentLoader.chunk_text, LoadDocuments.chunk_text, chunkLoop_eq]

/-- C5: for every text whose length is at most chunk_size (the empty
string included), `chunk_text` returns the single-element list holding
the text unchanged, for any overlap and any fuel. -/
theorem chunk_text_short_single (fuel : Nat) (t : PyStr) (cs ov : Int)
    (h : (t.length : Int) ≤ cs) :
    DocumentLoader.chunk_text fuel t cs ov = .ok [t] := by
  simp only [DocumentLoader.chunk_text, if_pos h]

/-- Witness for C5 at a concrete input: the empty string with
chunk_size 10 and overlap 2 is returned as a single empty chunk. -/
theorem chunk_text_short_single_witness :
    DocumentLoader.chunk_text 0 [] 10 2 = .ok [[]] :=
  chunk_text_short_single 0 [] 10 2 (by decide)

/-- C2: `chunk_text` performs no validation of overlap against
chunk_size.  Called with overlap 5 ≥ chunk_size 1 on the text "a" it
raises nothing and returns ["a"] (and on any text longer than chunk_size
it never terminates instead of raising): no InvalidArgument error exists
in the code. -/
theorem chunk_text_no_overlap_validation :
    ∀ fuel : Nat, DocumentLoader.chunk_text fuel "a".toList 1 5 = .ok ["a".toList] := by
  intro fuel
  rfl

section NonTermination

/-- One loop iteration on "abcd" with chunk_size 2, overlap 1 from
start 0: window (0,2), next start 1. -/
theorem abcd_step0 (n : Nat) (spans : List (Int × Int)) :
    DocumentLoader.chunkLoop "abcd".toList 2 1 (n + 1) 0 spans =
      DocumentLoader.chunkLoop "abcd".toList 2 1 n 1 (spans ++ [(0, 2)]) := rfl

/-- Iteration from start 1: window (1,3), next start 2. -/
theorem abcd_step1 (n : Nat) (spans : List (Int × Int)) :
    DocumentLoader.chunkLoop "abcd".toList 2 1 (n + 1) 1 spans =
      DocumentLoader.chunkLoop "abcd".toList 2 1 n 2 (spans ++ [(1, 3)]) := rfl

/-- Iteration from start 2: window (2,4), next start 3. -/
theorem abcd_step2 (n : Nat) (spans : List (Int × Int)) :
    DocumentLoader.chunkLoop "abcd".toList 2 1 (n + 1) 2 spans =
      DocumentLoader.chunkLoop "abcd".toList 2 1 n 3 (spans ++ [(2, 4)]) := rfl

/-- From start 3 the loop is stuck: end = min(3+2,4) = 4 = len, so no
sentence snap, and the next start is 4 - 1 = 3 again; the loop re-appends
the window (3,4) forever and exhausts any amount of fuel. -/
theorem abcd_stuck (n : Nat) : ∀ spans : List (Int × Int),
    DocumentLoader.chunkLoop "abcd".toList 2 1 n 3 spans = .error .fuelExhausted := by
  induction n with
  | zero => intro spans; rfl
  | succ m ih =>
    intro spans
    have hstep : DocumentLoader.chunkLoop "abcd".toList 2 1 (m + 1) 3 spans =
        DocumentLoader.chunkLoop "abcd".toList 2 1 m 3 (spans ++ [(3, 4)]) := rfl
    rw [hstep]
    exact ih _

end NonTermination

/-- C1: refuted on the code.  `chunk_text("abcd", chunk_size=2,
overlap=1)` has valid parameters (0 ≤ overlap < chunk_size, 0 <
chunk_size) yet the loop never terminates: once end reaches len(text),
the next start is len(text) - overlap < len(text) and never advances
again, so `start` does not strictly increase and no amount of fuel makes
the call return. -/
theorem chunk_text_abcd_diverges :
    ∀ fuel : Nat, DocumentLoader.chunk_text fuel "abcd".toList 2 1 =
      .error .fuelExhausted := by
  intro fuel
  match fuel with
  | 0 => rfl
  | 1 => rfl
  | 2 => rfl
  | (n + 3) =>
    simp only [DocumentLoader.chunk_text]
    rw [if_neg (by decide)]
    rw [abcd_step0, abcd_step1, abcd_step2, abcd_stuck]

section ScenarioOne

/-- First iteration with chunk_size 15, overlap 3: the backward scan from
index 14 finds the period at index 11 followed by a space, so the first
window is (0,12) — the chunk "Hello world." — and the next start is
12 - 3 = 9. -/
theorem hello_step0 (n : Nat) (spans : List (Int × Int)) :
    DocumentLoader.chunkLoop helloText 15 3 (n + 1) 0 spans =
      DocumentLoader.chunkLoop helloText 15 3 n 9 (spans ++ [(0, 12)]) := rfl

/-- Second iteration: from start 9 no sentence boundary lies in the scan
window, so the window is (9,24) — the chunk "ld. This is a t" — and the
next start is 24 - 3 = 21. -/
theorem hello_step1 (n : Nat) (spans : List (Int × Int)) :
    DocumentLoader.chunkLoop helloText 15 3 (n + 1) 9 spans =
      DocumentLoader.chunkLoop helloText 15 3 n 21 (spans ++ [(9, 24)]) := rfl

/-- Third iteration: end = min(21+15, 28) = 28 = len, window (21,28),
next start 25. -/
theorem hello_step2 (n : Nat) (spans : List (Int × Int)) :
    DocumentLoader.chunkLoop helloText 15 3 (n + 1) 21 spans =
      DocumentLoader.chunkLoop helloText 15 3 n 25 (spans ++ [(21, 28)]) := rfl

/-- From start 25 the loop is stuck: end = 28 = len and the next start is
28 - 3 = 25 again; the window (25,28) is re-appended forever. -/
theorem hello_stuck (n : Nat) : ∀ spans : List (Int × Int),
    DocumentLoader.chunkLoop helloText 15 3 n 25 spans = .error .fuelExhausted := by
  induction n with
  | zero => intro spans; rfl
  | succ m ih =>
    intro spans
    have hstep : DocumentLoader.chunkLoop helloText 15 3 (m + 1) 25 spans =
        DocumentLoader.chunkLoop helloText 15 3 m 25 (spans ++ [(25, 28)]) := rfl
    rw [hstep]
    exact ih _

end ScenarioOne

/-- C4: refuted on the code.  `chunk_text("Hello world. This is a
test.", chunk_size=15, overlap=3)` does not return the claimed two-element
list: after the first chunk "Hello world." the loop restarts at raw
offset 12 - 3 = 9 (not at the sentence start 13), producing "ld. This is
a t" as its second chunk, and once end reaches len(text) = 28 the start
stays at 25 forever, so the call never returns at all. -/
theorem chunk_text_hello_diverges :
    ∀ fuel : Nat, DocumentLoader.chunk_text fuel helloText 15 3 =
      .error .fuelExhausted := by
  intro fuel
  match fuel with
  | 0 => rfl
  | 1 => rfl
  | 2 => rfl
  | 3 => rfl
  | (n + 4) =>
    simp only [DocumentLoader.chunk_text]
    rw [if_neg (by decide)]
    rw [hello_step0, hello_step1, hello_step2, hello_stuck]

section SpanInvariants

/-- A clamped slice endpoint never exceeds the string length. -/
theorem pyIdx_le (n : Nat) (x : Int) : pyIdx n x ≤ n := by
  unfold pyIdx
  split <;> omega

/-- Length of a Python slice in terms of its clamped endpoints. -/
theorem pySlice_length_eq (s : PyStr) (a b : Int) :
    (pySlice s a b).length = pyIdx s.length b - pyIdx s.length a := by
  have hb := pyIdx_le s.length b
  simp only [pySlice, List.length_drop, List.length_take]
  omega

/-- A slice whose window `(a, b)` satisfies the chunk-window bounds has
length at most `cs`, whatever the signs of the raw endpoints. -/
theorem pySlice_length_le (s : PyStr) (a b cs : Int) (hab : a < b)
    (hbc : b ≤ a + cs) (hbl : b ≤ (s.length : Int)) :
    ((pySlice s a b).length : Int) ≤ cs := by
  rw [pySlice_length_eq]
  unfold pyIdx
  split <;> split <;> omega

/-- Stripping never lengthens a string. -/
theorem pyStrip_length_le (s : PyStr) : (pyStrip s).length ≤ s.length := by
  unfold pyStrip
  calc ((s.dropWhile isPySpace).reverse.dropWhile isPySpace).reverse.length
      = ((s.dropWhile isPySpace).reverse.dropWhile isPySpace).length := by
        rw [List.length_reverse]
    _ ≤ (s.dropWhile isPySpace).reverse.length :=
        (List.dropWhile_sublist _).length_le
    _ = (s.dropWhile isPySpace).length := by rw [List.length_reverse]
    _ ≤ s.length := (List.dropWhile_sublist _).length_le

/-- Members of `range(hi, lo, -1)` lie strictly above `lo` and at most `hi`. -/
theorem mem_pyRangeRev {i hi lo : Int} (h : i ∈ pyRangeRev hi lo) :
    lo < i ∧ i ≤ hi := by
  unfold pyRangeRev at h
  obtain ⟨k, hk, hke⟩ := List.mem_map.mp h
  have hk2 : k < (hi - lo).toNat := List.mem_range.mp hk
  omega

/-- A sentence-boundary found by the scan is one past a scanned index. -/
theorem findSnap_some {t : PyStr} : ∀ {l : List Int} {j : Int},
    DocumentLoader.findSnap t l = .ok (some j) → ∃ i ∈ l, j = i + 1 := by
  intro l
  induction l with
  | nil => intro j h; simp [DocumentLoader.findSnap] at h
  | cons i rest ih =>
    intro j h
    simp only [DocumentLoader.findSnap] at h
    split at h
    · cases h
    · split at h
      · split at h
        · simp only [Except.ok.injEq, Option.some.injEq] at h
          exact ⟨i, List.mem_cons_self i rest, h.symm⟩
        · split at h
          · cases h
          · split at h
            · simp only [Except.ok.injEq, Option.some.injEq] at h
              exact ⟨i, List.mem_cons_self i rest, h.symm⟩
            · obtain ⟨i', hi', hj⟩ := ih h
              exact ⟨i', List.mem_cons_of_mem i hi', hj⟩
      · obtain ⟨i', hi', hj⟩ := ih h
        exact ⟨i', List.mem_cons_of_mem i hi', hj⟩

/-- Bounds of the window end produced by one loop iteration: it lies
strictly past the window start, at most `chunk_size` past it, and within
the text. -/
theorem snapEnd_ok_bounds {t : PyStr} {cs start e : Int} (hcs : 1 ≤ cs)
    (hlt : start < (t.length : Int))
    (h : DocumentLoader.snapEnd t cs start = .ok e) :
    start < e ∧ e ≤ start + cs ∧ e ≤ (t.length : Int) := by
  have h0l : min (start + cs) (t.length : Int) ≤ start + cs := min_le_left _ _
  have h0r : min (start + cs) (t.length : Int) ≤ (t.length : Int) := min_le_right _ _
  have h0gt : start < min (start + cs) (t.length : Int) := lt_min (by omega) hlt
  simp only [DocumentLoader.snapEnd] at h
  by_cases hle : min (start + cs) (t.length : Int) < (t.length : Int)
  · rw [if_pos hle] at h
    match hf : DocumentLoader.findSnap t
        (pyRangeRev (min (start + cs) (t.length : Int) - 1)
          (max (start + Int.fdiv cs 2) start)) with
    | .error e' => rw [hf] at h; cases h
    | .ok (some j) =>
      rw [hf] at h
      cases h
      obtain ⟨i, hi, rfl⟩ := findSnap_some hf
      obtain ⟨hlo, hhi⟩ := mem_pyRangeRev hi
      have hmax : start ≤ max (start + Int.fdiv cs 2) start := le_max_right _ _
      omega
    | .ok none =>
      rw [hf] at h
      cases h
      omega
  · rw [if_neg hle] at h
    cases h
    omega

/-- The chunk-window invariant is preserved by the loop: every window in
an `.ok` result satisfies the bounds of `snapEnd_ok_bounds`. -/
theorem chunkLoop_spans_ok {t : PyStr} {cs ov : Int} (hcs : 1 ≤ cs) :
    ∀ (fuel : Nat) (start : Int) (spans res : List (Int × Int)),
    DocumentLoader.chunkLoop t cs ov fuel start spans = .ok res →
    (∀ p ∈ spans, p.1 < p.2 ∧ p.2 ≤ p.1 + cs ∧ p.2 ≤ (t.length : Int)) →
    ∀ p ∈ res, p.1 < p.2 ∧ p.2 ≤ p.1 + cs ∧ p.2 ≤ (t.length : Int) := by
  intro fuel
  induction fuel with
  | zero => intro start spans res h _; cases h
  | succ n ih =>
    intro start spans res h hspans
    simp only [DocumentLoader.chunkLoop] at h
    by_cases hlt : start < (t.length : Int)
    · rw [if_pos hlt] at h
      match hs : DocumentLoader.snapEnd t cs start with
      | .error e' => rw [hs] at h; cases h
      | .ok e =>
        rw [hs] at h
        have hb := snapEnd_ok_bounds hcs hlt hs
        refine ih (e - ov) (spans ++ [(start, e)]) res h ?_
        intro p hp
        rcases List.mem_append.mp hp with hp | hp
        · exact hspans p hp
        · rcases List.mem_singleton.mp hp with rfl
          exact hb
    · rw [if_neg hlt] at h
      cases h
      exact hspans

end SpanInvariants

/-- C6: for valid parameters (0 < chunk_size, 0 ≤ overlap < chunk_size),
every chunk in a list returned by `chunk_text` has length at most
chunk_size. -/
theorem chunk_text_chunk_length_le (fuel : Nat) (t : PyStr) (cs ov : Int)
    (out : List PyStr) (hcs : 0 < cs) (_hov : 0 ≤ ov) (_hovcs : ov < cs)
    (h : DocumentLoader.chunk_text fuel t cs ov = .ok out) :
    ∀ c ∈ out, (c.length : Int) ≤ cs := by
  intro c hc
  simp only [DocumentLoader.chunk_text] at h
  by_cases hlen : (t.length : Int) ≤ cs
  · rw [if_pos hlen] at h
    cases h
    rcases List.mem_singleton.mp hc with rfl
    exact hlen
  · rw [if_neg hlen] at h
    match hl : DocumentLoader.chunkLoop t cs ov fuel 0 [] with
    | .error e => rw [hl] at h; cases h
    | .ok spans =>
      rw [hl] at h
      cases h
      obtain ⟨p, hp, rfl⟩ := List.mem_map.mp hc
      obtain ⟨h1, h2, h3⟩ := chunkLoop_spans_ok hcs fuel 0 [] spans hl (by simp) p hp
      have hs : ((pySlice t p.1 p.2).length : Int) ≤ cs :=
        pySlice_length_le t p.1 p.2 cs h1 h2 h3
      have ht : (pyStrip (pySlice t p.1 p.2)).length ≤ (pySlice t p.1 p.2).length :=
        pyStrip_length_le _

      omega

/-- Witness for C6: chunking "abcdef" with chunk_size 3, overlap 0
returns ["abc", "def"], and the first chunk's length is at most 3. -/
theorem chunk_text_chunk_length_le_witness : (("abc".toList.length : Int)) ≤ 3 :=
  chunk_text_chunk_length_le 10 "abcdef".toList 3 0 ["abc".toList, "def".toList]
    (by decide) (by decide) (by decide) (by rfl) "abc".toList (by decide)

section SpanChain

/-- The loop threads `start = end - overlap` from each recorded window to
the next: the windows of an `.ok` result form a chain in which each
window starts exactly `overlap` characters before the previous window's
end. -/
theorem chunkLoop_chain {t : PyStr} {cs ov : Int} :
    ∀ (fuel : Nat) (start : Int) (spans res : List (Int × Int)),
    DocumentLoader.chunkLoop t cs ov fuel start spans = .ok res →
    List.Chain' (fun p q => q.1 = p.2 - ov) spans →
    (∀ p, spans.getLast? = some p → start = p.2 - ov) →
    List.Chain' (fun p q => q.1 = p.2 - ov) res := by
  intro fuel
  induction fuel with
  | zero => intro start spans res h _ _; cases h
  | succ n ih =>
    intro start spans res h hchain hlast
    simp only [DocumentLoader.chunkLoop] at h
    by_cases hlt : start < (t.length : Int)
    · rw [if_pos hlt] at h
      match hs : DocumentLoader.snapEnd t cs start with
      | .error e' => rw [hs] at h; cases h
      | .ok e =>
        rw [hs] at h
        refine ih (e - ov) (spans ++ [(start, e)]) res h ?_ ?_
        · rw [List.chain'_append]
          refine ⟨hchain, List.chain'_singleton _, ?_⟩
          intro p hp q hq
          simp only [List.head?_cons, Option.mem_def, Option.some.injEq] at hq
          subst hq
          exact hlast p hp
        · intro p hp
          rw [List.getLast?_concat] at hp
          cases hp
          rfl
    · rw [if_neg hlt] at h
      cases h
      exact hchain

end SpanChain

/-- C7: whenever the chunker's windows are available (the run returned),
each window after the first starts exactly at the previous window's end
minus the overlap, hence at or before `end_i - overlap`, for every
consecutive pair. -/
theorem chunk_spans_consecutive (fuel : Nat) (t : PyStr) (cs ov : Int)
    (spans : List (Int × Int))
    (h : DocumentLoader.chunk_spans fuel t cs ov = .ok spans)
    (i : Nat) (p q : Int × Int)
    (hp : spans.get? i = some p) (hq : spans.get? (i + 1) = some q) :
    q.1 ≤ p.2 - ov := by
  have hchain : List.Chain' (fun p q => q.1 = p.2 - ov) spans := by
    simp only [DocumentLoader.chunk_spans] at h
    by_cases hlen : (t.length : Int) ≤ cs
    · rw [if_pos hlen] at h
      cases h
      exact List.chain'_singleton _
    · rw [if_neg hlen] at h
      exact chunkLoop_chain fuel 0 [] spans h (List.chain'_nil) (by intro p hp; cases hp)
  obtain ⟨hpl, hpe⟩ := List.get?_eq_some.mp hp
  obtain ⟨hql, hqe⟩ := List.get?_eq_some.mp hq
  have := List.chain'_iff_get.mp hchain i (by omega)
  rw [hpe, hqe] at this
  omega

/-- Witness for C7: chunking "abcdef" with chunk_size 3, overlap 0 yields
windows (0,3) and (3,6); the second starts at 3 ≤ 3 - 0. -/
theorem chunk_spans_consecutive_witness : ((3 : Int), (6 : Int)).1 ≤ ((0 : Int), (3 : Int)).2 - 0 :=
  chunk_spans_consecutive 10 "abcdef".toList 3 0 [(0, 3), (3, 6)] (by rfl)
    0 (0, 3) (3, 6) (by rfl) (by rfl)

section PackLemmas

/-- A formatted context entry is never empty (it begins with the literal
"Document ID: "). -/
theorem fmtDoc_length_pos (d : Retriever.RDoc) (t : PyStr) :
    0 < (Retriever.fmtDoc d t).length := by
  simp [Retriever.fmtDoc]

/-- With a non-positive budget the loop appends nothing: the first
text-bearing result fails the fit test with `remaining ≤ 0 ≤ 100`. -/
theorem packLoop_nonpos (budget : Int) (hb : budget ≤ 0) :
    ∀ docs : List Retriever.RDoc, Retriever.packLoop budget docs 0 [] = [] := by
  intro docs
  induction docs with
  | nil => rfl
  | cons d rest ih =>
    match hdt : d.text with
    | none => simp only [Retriever.packLoop, hdt]; exact ih
    | some tx =>
      have hpos := fmtDoc_length_pos d tx
      simp only [Retriever.packLoop, hdt]
      rw [if_neg (by omega)]
      rw [if_neg (by omega)]

/-- An element of the greedy prefix is an element of the entry list. -/
theorem greedyFit_subset {e : PyStr} :
    ∀ {budget : Int} {l : List PyStr}, e ∈ Retriever.greedyFit budget l → e ∈ l := by
  intro budget l
  induction l generalizing budget with
  | nil => intro h; simp [Retriever.greedyFit] at h
  | cons s rest ih =>
    intro h
    simp only [Retriever.greedyFit] at h
    split at h
    · rcases List.mem_cons.mp h with rfl | h
      · exact List.mem_cons_self _ _
      · exact List.mem_cons_of_mem _ (ih h)
    · cases h

/-- An element of `docFmts` is the formatted entry of a text-bearing
result of the list. -/
theorem mem_docFmts {e : PyStr} {docs : List Retriever.RDoc}
    (h : e ∈ Retriever.docFmts docs) :
    ∃ d ∈ docs, ∃ tx : PyStr, d.text = some tx ∧ e = Retriever.fmtDoc d tx := by
  obtain ⟨d, hd, hm⟩ := List.mem_filterMap.mp h
  obtain ⟨tx, htx, hfe⟩ := Option.map_eq_some'.mp hm
  exact ⟨d, hd, tx, htx, hfe.symm⟩

/-- Structure of the loop's output: whatever was already accumulated,
then the greedy in-order prefix of the formatted entries that fits the
remaining budget, then at most one final truncated entry ending in
`...`. -/
theorem packLoop_structure (budget : Int) :
    ∀ (docs : List Retriever.RDoc) (used : Int) (acc : List PyStr),
    ∃ tail : List PyStr,
      Retriever.packLoop budget docs used acc =
        acc ++ Retriever.greedyFit (budget - used) (Retriever.docFmts docs) ++ tail ∧
      (tail = [] ∨ ∃ d ∈ docs, ∃ tx : PyStr, d.text = some tx ∧ ∃ k : Int,
        tail = [pySlice (Retriever.fmtDoc d tx) 0 k ++ "...".toList]) := by
  intro docs
  induction docs with
  | nil =>
    intro used acc
    exact ⟨[], by simp [Retriever.packLoop, Retriever.docFmts, Retriever.greedyFit], Or.inl rfl⟩
  | cons d rest ih =>
    intro used acc
    match hdt : d.text with
    | none =>
      obtain ⟨tail, heq, hcase⟩ := ih used acc
      refine ⟨tail, ?_, ?_⟩
      · simp only [Retriever.packLoop, hdt]
        rw [heq]
        simp [Retriever.docFmts, List.filterMap_cons, hdt]
      · rcases hcase with rfl | ⟨d', hd', tx, htx, k, htail⟩
        · exact Or.inl rfl
        · exact Or.inr ⟨d', List.mem_cons_of_mem _ hd', tx, htx, k, htail⟩
    | some tx =>
      have hfmts : Retriever.docFmts (d :: rest) =
          Retriever.fmtDoc d tx :: Retriever.docFmts rest := by
        simp [Retriever.docFmts, List.filterMap_cons, hdt]
      by_cases hfit : used + ((Retriever.fmtDoc d tx).length : Int) ≤ budget
      · obtain ⟨tail, heq, hcase⟩ := ih (used + ((Retriever.fmtDoc d tx).length : Int))
          (acc ++ [Retriever.fmtDoc d tx])
        refine ⟨tail, ?_, ?_⟩
        · simp only [Retriever.packLoop, hdt]
          rw [if_pos hfit, heq, hfmts]
          simp only [Retriever.greedyFit]
          rw [if_pos (by omega)]
          have : budget - (used + ((Retriever.fmtDoc d tx).length : Int)) =
              budget - used - ((Retriever.fmtDoc d tx).length : Int) := by omega
          rw [this]
          simp
        · rcases hcase with rfl | ⟨d', hd', tx', htx', k, htail⟩
          · exact Or.inl rfl
          · exact Or.inr ⟨d', List.mem_cons_of_mem _ hd', tx', htx', k, htail⟩
      · have hg : Retriever.greedyFit (budget - used) (Retriever.docFmts (d :: rest)) = [] := by
          rw [hfmts]
          simp only [Retriever.greedyFit]
          rw [if_neg (by omega)]
        by_cases hrem : budget - used > 100
        · refine ⟨[pySlice (Retriever.fmtDoc d tx) 0 (budget - used - 3) ++ "...".toList],
            ?_, ?_⟩
          · simp only [Retriever.packLoop, hdt]
            rw [if_neg hfit, if_pos hrem, hg]
            simp
          · exact Or.inr ⟨d, List.mem_cons_self _ _, tx, hdt, budget - used - 3, rfl⟩
        · refine ⟨[], ?_, Or.inl rfl⟩
          simp only [Retriever.packLoop, hdt]
          rw [if_neg hfit, if_neg hrem, hg]
          simp

/-- The loop never exceeds the budget: if the accumulated entries have
total length `used ≤ budget`, the final joined output has length at most
`budget`. -/
theorem packLoop_length_le (budget : Int) :
    ∀ (docs : List Retriever.RDoc) (used : Int) (acc : List PyStr),
    ((acc.flatten.length : Int)) = used → used ≤ budget →
    (((Retriever.packLoop budget docs used acc).flatten.length : Int)) ≤ budget := by
  intro docs
  induction docs with
  | nil =>
    intro used acc hacc hle
    simp only [Retriever.packLoop]
    omega
  | cons d rest ih =>
    intro used acc hacc hle
    match hdt : d.text with
    | none => simp only [Retriever.packLoop, hdt]; exact ih used acc hacc hle
    | some tx =>
      simp only [Retriever.packLoop, hdt]
      by_cases hfit : used + ((Retriever.fmtDoc d tx).length : Int) ≤ budget
      · rw [if_pos hfit]
        refine ih _ _ ?_ hfit
        simp only [List.flatten_append, List.flatten_cons, List.flatten_nil,
          List.append_nil, List.length_append]
        omega
      · rw [if_neg hfit]
        by_cases hrem : budget - used > 100
        · rw [if_pos hrem]
          have hsl : ((pySlice (Retriever.fmtDoc d tx) 0 (budget - used - 3)).length : Int) ≤
              budget - used - 3 := by
            rw [pySlice_length_eq]
            unfold pyIdx
            split <;> split <;> omega
          have hm : ("...".toList.length) = 3 := rfl
          simp only [List.flatten_append, List.flatten_cons, List.flatten_nil,
            List.append_nil, List.length_append]
          omega
        · rw [if_neg hrem]
          omega

end PackLemmas

/-- C9: the context-assembly loop of `retrieve_for_llm_context` processes
results strictly in rank order: its entry list is exactly the greedy
in-order prefix of the text-bearing results' formatted entries that fits
the character budget — the first K fitting results, verbatim, in their
original relative order, with nothing reordered or skipped — followed by
at most one truncated entry. -/
theorem pack_entries_in_rank_order (docs : List Retriever.RDoc) (mt : Int) :
    ∃ tail : List PyStr,
      Retriever.packEntries docs mt =
        Retriever.greedyFit (mt * 4) (Retriever.docFmts docs) ++ tail ∧
      tail.length ≤ 1 := by
  obtain ⟨tail, heq, hcase⟩ := packLoop_structure (mt * 4) docs 0 []
  refine ⟨tail, ?_, ?_⟩
  · simpa [Retriever.packEntries] using heq
  · rcases hcase with rfl | ⟨_, _, _, _, _, htail⟩
    · simp
    · simp [htail]

/-- C3: for positive `max_tokens` the assembled context string has length
at most `max_tokens * 4`; every entry except possibly the last is a full
formatted entry of one of the results, and a final truncated entry, when
present, is a slice of a result's formatted entry with the marker `...`
appended. -/
theorem pack_budget_and_truncation (docs : List Retriever.RDoc) (mt : Int)
    (h : 0 < mt) :
    ((Retriever.pack docs mt).length : Int) ≤ mt * 4 ∧
    (∀ e ∈ (Retriever.packEntries docs mt).dropLast, ∃ d ∈ docs, ∃ tx : PyStr,
      d.text = some tx ∧ e = Retriever.fmtDoc d tx) ∧
    (∀ e, (Retriever.packEntries docs mt).getLast? = some e →
      (∃ d ∈ docs, ∃ tx : PyStr, d.text = some tx ∧ e = Retriever.fmtDoc d tx) ∨
      (∃ d ∈ docs, ∃ tx : PyStr, d.text = some tx ∧ ∃ k : Int,
        e = pySlice (Retriever.fmtDoc d tx) 0 k ++ "...".toList)) := by
  have hfull : ∀ e ∈ Retriever.greedyFit (mt * 4) (Retriever.docFmts docs),
      ∃ d ∈ docs, ∃ tx : PyStr, d.text = some tx ∧ e = Retriever.fmtDoc d tx :=
    fun e he => mem_docFmts (greedyFit_subset he)
  obtain ⟨tail, heq, hcase⟩ := packLoop_structure (mt * 4) docs 0 []
  have hentries : Retriever.packEntries docs mt =
      Retriever.greedyFit (mt * 4) (Retriever.docFmts docs) ++ tail := by
    simpa [Retriever.packEntries] using heq
  refine ⟨?_, ?_, ?_⟩
  · exact packLoop_length_le (mt * 4) docs 0 [] (by simp) (by omega)
  · intro e he
    rw [hentries] at he
    rcases hcase with rfl | ⟨d, hd, tx, htx, k, htail⟩
    · rw [List.append_nil] at he
      exact hfull e (List.dropLast_sublist _ |>.subset he)
    · rw [htail, List.dropLast_concat] at he
      exact hfull e he
  · intro e he
    rw [hentries] at he
    rcases hcase with rfl | ⟨d, hd, tx, htx, k, htail⟩
    · rw [List.append_nil] at he
      obtain ⟨hne, rfl⟩ := List.mem_getLast?_eq_getLast (by simpa using he)
      exact Or.inl (hfull _ (List.getLast_mem hne))
    · rw [htail, List.getLast?_concat] at he
      cases he
      exact Or.inr ⟨d, hd, tx, htx, k, rfl⟩

/-- Witness for C3: one result with text "hi" and max_tokens 50 gives a
58-character context, within the 200-character budget. -/
theorem pack_budget_witness :
    (0 : Int) < 50 ∧
      ((Retriever.pack [⟨none, some "hi".toList, none⟩] 50).length : Int) ≤ 50 * 4 :=
  ⟨by decide, (pack_budget_and_truncation [⟨none, some "hi".toList, none⟩] 50 (by decide)).1⟩

/-- C8 as stated is false: `retrieve_for_llm_context` performs no
validation of `max_tokens`.  Called with max_tokens = 0 on a result list
with text it raises nothing and returns the empty context string. -/
theorem pack_no_max_tokens_validation :
    Retriever.pack [⟨none, some "hi".toList, none⟩] 0 = [] := rfl

/-- C8 amended: for every result list and every max_tokens ≤ 0, the
packing loop appends no entry (the non-positive budget can fit nothing
and the truncation path needs more than 100 remaining characters), so the
function returns the empty string instead of raising. -/
theorem pack_nonpos_returns_empty (docs : List Retriever.RDoc) (mt : Int)
    (h : mt ≤ 0) : Retriever.pack docs mt = [] := by
  unfold Retriever.pack Retriever.packEntries
  rw [packLoop_nonpos (mt * 4) (by omega) docs]
  rfl

/-- Witness for the amended C8 at max_tokens = -1. -/
theorem pack_nonpos_returns_empty_witness :
    Retriever.pack [⟨none, some "hi".toList, none⟩] (-1) = [] :=
  pack_nonpos_returns_empty [⟨none, some "hi".toList, none⟩] (-1) (by decide)

